import Mathlib

/-!
Verification development for the background command execution engine of the
ssh-mcp repository.

The definitions below are a shallow embedding of the Go sources:
* `commands/command.go` — streaming revision (the revision whose host executor
  uses `executeWithStreaming` with per-chunk result updates); the state machine
  (`Start`, `Cancel`, `ToState`) and the per-host executor are embedded as a
  labelled small-step transition system over an explicit `Sys` state.
* `commands/runner.go` — the registry (`GetCommand`, `GetMostRecentCommand`).
* `tools/get_command_status.go` / `tools/perform_command.go` — the bounded
  polling wait loops (`waitForCompletion` / `waitForCommandOrBackground`,
  identical 500 ms ticker loops with a 30 s budget).

Go `map[string]CommandResult` is modelled as an association list with
insert-or-replace update, timestamps as natural numbers supplied at each
time-reading step, `context.WithCancel` as a boolean pair
(`cancelAlloc` — the cancel function is non-nil, `cancelled` — the context's
done channel is closed), and Go `error` values as `Option String` carrying the
message.
-/

namespace SshMcp

/-- `CommandStatus` — the five status values of `commands/command.go`. -/
inductive CommandStatus
  | pending
  | running
  | completed
  | failed
  | cancelled
deriving DecidableEq, Repr

/-- Terminal statuses, as tested by the wait loops in
`tools/get_command_status.go` (completed, failed or cancelled). -/
def CommandStatus.isTerminal : CommandStatus → Bool
  | .completed => true
  | .failed => true
  | .cancelled => true
  | _ => false

/-- `CommandResult` of `commands/perform.go`: per-host outcome.
`err = none` models a nil error; `err = some msg` a non-nil error with
message `msg`. -/
structure CommandResult where
  host : String
  result : String
  err : Option String
deriving DecidableEq, Repr

/-- A target host: the (Group, Name) pair of `ssh.ClientInfo` that the command
engine uses (`Name` is the results-map key, both appear in `ToState`). -/
structure HostSpec where
  group : String
  name : String
deriving DecidableEq, Repr

/-! ### Association-list model of Go's `map[string]CommandResult` -/

/-- Go map assignment `m[k] = v`: replace the binding of `k` if present,
otherwise add it. -/
def mapSet (m : List (String × CommandResult)) (k : String) (v : CommandResult) :
    List (String × CommandResult) :=
  match m with
  | [] => [(k, v)]
  | (k', v') :: rest =>
    if k' = k then (k, v) :: rest else (k', v') :: mapSet rest k v

/-- Go map lookup `m[k]`. -/
def mapGet (m : List (String × CommandResult)) (k : String) : Option CommandResult :=
  match m with
  | [] => none
  | (k', v') :: rest => if k' = k then some v' else mapGet rest k

/-- The keys of the map (in insertion order). -/
def mapKeys (m : List (String × CommandResult)) : List String :=
  m.map Prod.fst

theorem mapGet_mapSet_self (m : List (String × CommandResult)) (k : String)
    (v : CommandResult) : mapGet (mapSet m k v) k = some v := by
  induction m with
  | nil => simp [mapSet, mapGet]
  | cons p rest ih =>
    obtain ⟨k', v'⟩ := p
    by_cases h : k' = k <;> simp [mapSet, mapGet, h, ih]

theorem mapGet_mapSet_ne (m : List (String × CommandResult)) (k k' : String)
    (v : CommandResult) (h : k' ≠ k) :
    mapGet (mapSet m k v) k' = mapGet m k' := by
  induction m with
  | nil =>
    simp only [mapSet, mapGet, if_neg (fun hh : k = k' => h hh.symm)]
  | cons p rest ih =>
    obtain ⟨k₀, v₀⟩ := p
    by_cases h0 : k₀ = k
    · rw [show mapSet ((k₀, v₀) :: rest) k v = (k, v) :: rest by
        simp [mapSet, h0]]
      simp only [mapGet, if_neg (fun hh : k = k' => h hh.symm), if_neg
        (fun hh : k₀ = k' => h (h0 ▸ hh).symm)]
    · rw [show mapSet ((k₀, v₀) :: rest) k v = (k₀, v₀) :: mapSet rest k v by
        simp [mapSet, h0]]
      by_cases h1 : k₀ = k'
      · simp only [mapGet, if_pos h1]
      · simp only [mapGet, if_neg h1, ih]

theorem mem_mapKeys_mapSet (m : List (String × CommandResult)) (k a : String)
    (v : CommandResult) :
    a ∈ mapKeys (mapSet m k v) ↔ a = k ∨ a ∈ mapKeys m := by
  induction m with
  | nil => simp [mapSet, mapKeys]
  | cons p rest ih =>
    obtain ⟨k₀, v₀⟩ := p
    by_cases h0 : k₀ = k
    · rw [show mapSet ((k₀, v₀) :: rest) k v = (k, v) :: rest by
        simp [mapSet, h0]]
      subst h0
      simp only [mapKeys, List.map_cons, List.mem_cons]
      constructor
      · rintro (hh | hh)
        · exact Or.inl hh
        · exact Or.inr (Or.inr hh)
      · rintro (hh | hh | hh)
        · exact Or.inl hh
        · exact Or.inl hh
        · exact Or.inr hh
    · rw [show mapSet ((k₀, v₀) :: rest) k v = (k₀, v₀) :: mapSet rest k v by
        simp [mapSet, h0]]
      simp only [mapKeys, List.map_cons, List.mem_cons] at ih ⊢
      constructor
      · rintro (hh | hh)
        · exact Or.inr (Or.inl hh)
        · rcases ih.1 hh with hh | hh
          · exact Or.inl hh
          · exact Or.inr (Or.inr hh)
      · rintro (hh | hh | hh)
        · exact Or.inr (ih.2 (Or.inl hh))
        · exact Or.inl hh
        · exact Or.inr (ih.2 (Or.inr hh))

theorem nodup_mapKeys_mapSet (m : List (String × CommandResult)) (k : String)
    (v : CommandResult) (h : (mapKeys m).Nodup) :
    (mapKeys (mapSet m k v)).Nodup := by
  induction m with
  | nil => simp [mapSet, mapKeys]
  | cons p rest ih =>
    obtain ⟨k₀, v₀⟩ := p
    simp only [mapKeys, List.map_cons, List.nodup_cons] at h
    by_cases h0 : k₀ = k
    · rw [show mapSet ((k₀, v₀) :: rest) k v = (k, v) :: rest by
        simp [mapSet, h0]]
      subst h0
      simpa [mapKeys, List.nodup_cons] using h
    · rw [show mapSet ((k₀, v₀) :: rest) k v = (k₀, v₀) :: mapSet rest k v by
        simp [mapSet, h0]]
      simp only [mapKeys, List.map_cons, List.nodup_cons]
      refine ⟨fun hmem => ?_, ih h.2⟩
      rcases (mem_mapKeys_mapSet rest k k₀ v).1 hmem with h1 | h1
      · exact h0 h1
      · exact h.1 h1

/-! ### The Command structure (`commands/command.go`) -/

/-- The `Command` struct.  `cancelAlloc` models `cancel != nil` (the
`context.CancelFunc` has been allocated by `Start`); `cancelled` models the
context's done channel being closed (`ctx.Done()` selectable).  Timestamps are
naturals; `err` is the struct's `err` field (always nil in the engine, kept for
`ToState`). -/
structure Command where
  id : String
  status : CommandStatus
  command : String
  hosts : List HostSpec
  results : List (String × CommandResult)
  createdAt : Nat
  startedAt : Option Nat
  endedAt : Option Nat
  err : Option String
  cancelAlloc : Bool
  cancelled : Bool
deriving DecidableEq, Repr

/-- `CommandState` — the serializable copy produced by `ToState`. -/
structure CommandState where
  id : String
  status : CommandStatus
  command : String
  hosts : List HostSpec
  results : List (String × CommandResult)
  createdAt : Nat
  startedAt : Option Nat
  endedAt : Option Nat
  error : String
deriving DecidableEq, Repr

/-- `Command.ToState`: a copy of the state under the read lock — host
identifiers, a copy of the live `results` map, timestamps, and the error
rendered as a string (empty when nil). -/
def Command.toState (c : Command) : CommandState :=
  { id := c.id
    status := c.status
    command := c.command
    hosts := c.hosts
    results := c.results
    createdAt := c.createdAt
    startedAt := c.startedAt
    endedAt := c.endedAt
    error := match c.err with
      | none => ""
      | some m => m }

/-- The successful branch of `Command.Start`: allocate a fresh cancellable
context, set status to running, record the start time. -/
def startedCommand (c : Command) (t : Nat) : Command :=
  { c with cancelAlloc := true, cancelled := false,
           status := .running, startedAt := some t }

/-- `Command.Start` up to its synchronous return (the spawned goroutine is the
transition system below).  Returns the error (`none` on success) and the state
of the struct when the call returns. -/
def Command.start (c : Command) (t : Nat) : Option String × Command :=
  if c.status = .pending then (none, startedCommand c t)
  else (some ("command " ++ c.id ++ " is not in pending state"), c)

/-- The effect of calling `c.cancel()`: closes the context's done channel,
guarded by `c.cancel != nil`. -/
def cancelSignalled (c : Command) : Command :=
  if c.cancelAlloc then { c with cancelled := true } else c

/-- `Command.Cancel`: error unless running; on success invoke the cancel
function (when allocated).  No other field is touched. -/
def Command.cancel (c : Command) : Option String × Command :=
  if c.status = .running then (none, cancelSignalled c)
  else (some ("command " ++ c.id ++ " is not running"), c)

/-! ### The per-host executor (`executeWithStreaming`) as a transition system

Each host executor is the goroutine spawned per host by `Start`, driving
`executeWithStreaming`.  Its control point is one of the phases below.  In
phase `streaming`, `so`/`se` are the local `stdoutBuf`/`stderrBuf` byte
buffers, and `joined` records whether both reader goroutines have finished
(`wg.Wait()` returned), at which point the local variable `output` is assigned
`stdoutBuf ++ stderrBuf` and `session.Wait()`'s outcome is sent on `done`. -/
inductive ExecPhase
  | idle
  | connecting
  | sessionReady
  | streaming (so se : String) (joined : Bool)
  | finished
deriving DecidableEq, Repr

/-- The value of the executor's `output` variable: assigned only when both
readers have joined, the nil byte slice (empty string) before that. -/
def outputVar (so se : String) (joined : Bool) : String :=
  if joined then so ++ se else ""

/-- One per-host executor: its target and its control point. -/
structure Exec where
  host : HostSpec
  phase : ExecPhase
deriving DecidableEq, Repr

/-- The whole engine state for one Command: the shared `Command` struct and
the executors spawned for it (empty before `Start`). -/
structure Sys where
  cmd : Command
  execs : List Exec
deriving DecidableEq, Repr

/-- The `readPipe` per-chunk update of `c.results[hostName]`: keep the
existing entry's host and error if present, otherwise create a fresh entry
with no error; either way store the combined buffer contents. -/
def readPipeUpdate (m : List (String × CommandResult)) (k : String)
    (combined : String) : List (String × CommandResult) :=
  match mapGet m k with
  | some r => mapSet m k { r with result := combined }
  | none => mapSet m k ⟨k, combined, none⟩

/-- `results.any` over error fields: the `hasErrors` loop of the final-status
computation. -/
def anyErr (m : List (String × CommandResult)) : Bool :=
  m.any fun p => p.2.err.isSome

/-- The final-status rule evaluated after `wg.Wait()` returns: cancelled if
the context was cancelled, else failed if any result carries an error, else
completed. -/
def finalStatus (cancelled : Bool) (results : List (String × CommandResult)) :
    CommandStatus :=
  if cancelled then .cancelled
  else if anyErr results then .failed
  else .completed

/-- The Command after the final critical section: `endedAt` stamped and the
final status stored. -/
def finalizedCommand (cmd : Command) (t : Nat) : Command :=
  { cmd with endedAt := some t,
             status := finalStatus cmd.cancelled cmd.results }

/-- Transition labels.  `i` indexes the executor in `Sys.execs`; the `t`
arguments are the wall-clock readings of `time.Now()`. -/
inductive Event
  | start (t : Nat)
  | cancel
  | precheckCancelled (i : Nat)
  | precheckPass (i : Nat)
  | connectFail (i : Nat) (msg : String)
  | connectOk (i : Nat)
  | setupFail (i : Nat) (msg : String)
  | setupOk (i : Nat)
  | chunkOut (i : Nat) (data : String)
  | chunkErr (i : Nat) (data : String)
  | readersJoin (i : Nat)
  | waitDone (i : Nat) (exitErr : Option String)
  | cancelObserved (i : Nat)
  | finalize (t : Nat)
deriving DecidableEq, Repr

/-- Small-step semantics of the engine (streaming revision of
`commands/command.go`).  Each constructor embeds one atomic mutation of the
shared state, i.e. one critical section under the Command's lock (or a pure
local move of one executor). -/
inductive Step : Sys → Event → Sys → Prop
  /-- `Start` succeeds from pending: allocates the context, sets
  running/startedAt, and spawns one executor per target. -/
  | start (cmd : Command) (execs : List Exec) (t : Nat)
      (hst : cmd.status = .pending) :
      Step ⟨cmd, execs⟩ (.start t)
        ⟨startedCommand cmd t, cmd.hosts.map fun h => ⟨h, .idle⟩⟩
  /-- `Cancel` succeeds from running: closes the context's done channel. -/
  | cancel (cmd : Command) (execs : List Exec)
      (hst : cmd.status = .running) :
      Step ⟨cmd, execs⟩ .cancel ⟨cancelSignalled cmd, execs⟩
  /-- Pre-dispatch check: the context is already cancelled, so record the
  "command cancelled" error and stop — before any connection attempt. -/
  | precheckCancelled (cmd : Command) (execs : List Exec) (i : Nat)
      (h : HostSpec) (hget : execs.get? i = some ⟨h, .idle⟩)
      (hc : cmd.cancelled = true) :
      Step ⟨cmd, execs⟩ (.precheckCancelled i)
        ⟨{ cmd with results := (mapSet cmd.results h.name
            ⟨h.name, "", some "command cancelled"⟩) },
          execs.set i ⟨h, .finished⟩⟩
  /-- Pre-dispatch check passes (`default` branch of the select): the context
  is not cancelled, proceed to connect. -/
  | precheckPass (cmd : Command) (execs : List Exec) (i : Nat)
      (h : HostSpec) (hget : execs.get? i = some ⟨h, .idle⟩)
      (hc : cmd.cancelled = false) :
      Step ⟨cmd, execs⟩ (.precheckPass i) ⟨cmd, execs.set i ⟨h, .connecting⟩⟩
  /-- `sshClient.Connect()` fails: record the connection error and stop. -/
  | connectFail (cmd : Command) (execs : List Exec) (i : Nat)
      (h : HostSpec) (msg : String)
      (hget : execs.get? i = some ⟨h, .connecting⟩) :
      Step ⟨cmd, execs⟩ (.connectFail i msg)
        ⟨{ cmd with results := (mapSet cmd.results h.name
            ⟨h.name, "", some ("failed to connect: " ++ msg)⟩) },
          execs.set i ⟨h, .finished⟩⟩
  /-- `sshClient.Connect()` succeeds. -/
  | connectOk (cmd : Command) (execs : List Exec) (i : Nat)
      (h : HostSpec) (hget : execs.get? i = some ⟨h, .connecting⟩) :
      Step ⟨cmd, execs⟩ (.connectOk i) ⟨cmd, execs.set i ⟨h, .sessionReady⟩⟩
  /-- One of the session-setup calls fails (`NewSession`, `StdoutPipe`,
  `StderrPipe` or `session.Start`): record its error and stop. -/
  | setupFail (cmd : Command) (execs : List Exec) (i : Nat)
      (h : HostSpec) (msg : String)
      (hget : execs.get? i = some ⟨h, .sessionReady⟩) :
      Step ⟨cmd, execs⟩ (.setupFail i msg)
        ⟨{ cmd with results := (mapSet cmd.results h.name
            ⟨h.name, "", some msg⟩) },
          execs.set i ⟨h, .finished⟩⟩
  /-- Session set up and command started: begin streaming with empty buffers. -/
  | setupOk (cmd : Command) (execs : List Exec) (i : Nat)
      (h : HostSpec) (hget : execs.get? i = some ⟨h, .sessionReady⟩) :
      Step ⟨cmd, execs⟩ (.setupOk i)
        ⟨cmd, execs.set i ⟨h, .streaming "" "" false⟩⟩
  /-- `readPipe` reads a chunk from stdout: append to `stdoutBuf` and publish
  the combined buffers into `results` under the Command's lock. -/
  | chunkOut (cmd : Command) (execs : List Exec) (i : Nat)
      (h : HostSpec) (so se data : String)
      (hget : execs.get? i = some ⟨h, .streaming so se false⟩)
      (hdata : data ≠ "") :
      Step ⟨cmd, execs⟩ (.chunkOut i data)
        ⟨{ cmd with results := (readPipeUpdate cmd.results h.name
            ((so ++ data) ++ se)) },
          execs.set i ⟨h, .streaming (so ++ data) se false⟩⟩
  /-- `readPipe` reads a chunk from stderr: append to `stderrBuf` and publish
  the combined buffers into `results` under the Command's lock. -/
  | chunkErr (cmd : Command) (execs : List Exec) (i : Nat)
      (h : HostSpec) (so se data : String)
      (hget : execs.get? i = some ⟨h, .streaming so se false⟩)
      (hdata : data ≠ "") :
      Step ⟨cmd, execs⟩ (.chunkErr i data)
        ⟨{ cmd with results := (readPipeUpdate cmd.results h.name
            (so ++ (se ++ data))) },
          execs.set i ⟨h, .streaming so (se ++ data) false⟩⟩
  /-- Both reader goroutines returned: `output` is assigned and
  `session.Wait()`'s outcome will be sent on `done`. -/
  | readersJoin (cmd : Command) (execs : List Exec) (i : Nat)
      (h : HostSpec) (so se : String)
      (hget : execs.get? i = some ⟨h, .streaming so se false⟩) :
      Step ⟨cmd, execs⟩ (.readersJoin i)
        ⟨cmd, execs.set i ⟨h, .streaming so se true⟩⟩
  /-- The `done` channel wins the race: record the exit outcome together with
  the merged output. -/
  | waitDone (cmd : Command) (execs : List Exec) (i : Nat)
      (h : HostSpec) (so se : String) (exitErr : Option String)
      (hget : execs.get? i = some ⟨h, .streaming so se true⟩) :
      Step ⟨cmd, execs⟩ (.waitDone i exitErr)
        ⟨{ cmd with results := (mapSet cmd.results h.name
            ⟨h.name, so ++ se, exitErr.map fun m => "command failed: " ++ m⟩) },
          execs.set i ⟨h, .finished⟩⟩
  /-- `ctx.Done()` wins the race: signal SIGTERM, close the session, and
  record "command cancelled" with the current value of `output` (empty unless
  both readers had already joined). -/
  | cancelObserved (cmd : Command) (execs : List Exec) (i : Nat)
      (h : HostSpec) (so se : String) (joined : Bool)
      (hget : execs.get? i = some ⟨h, .streaming so se joined⟩)
      (hc : cmd.cancelled = true) :
      Step ⟨cmd, execs⟩ (.cancelObserved i)
        ⟨{ cmd with results := (mapSet cmd.results h.name
            ⟨h.name, outputVar so se joined, some "command cancelled"⟩) },
          execs.set i ⟨h, .finished⟩⟩
  /-- `wg.Wait()` returned (every executor joined): set `endedAt` and compute
  the final status — cancelled if the context was cancelled, else failed if
  any result carries an error, else completed. -/
  | finalize (cmd : Command) (execs : List Exec) (t : Nat)
      (hall : ∀ e ∈ execs, e.phase = .finished)
      (hst : cmd.status = .running) :
      Step ⟨cmd, execs⟩ (.finalize t) ⟨finalizedCommand cmd t, execs⟩

/-- Reflexive-transitive closure of `Step`. -/
inductive Reaches : Sys → Sys → Prop
  | refl (s : Sys) : Reaches s s
  | tail {s s' s'' : Sys} {e : Event} :
      Reaches s s' → Step s' e s'' → Reaches s s''

/-- A freshly created Command (`Runner.CreateCommand`): pending, empty
results, no timestamps besides `createdAt`, no context. -/
def initCommand (id cmdStr : String) (hosts : List HostSpec) (t : Nat) :
    Command :=
  { id := id, status := .pending, command := cmdStr, hosts := hosts,
    results := [], createdAt := t, startedAt := none, endedAt := none,
    err := none, cancelAlloc := false, cancelled := false }

/-- The engine state right after `CreateCommand`: no executors. -/
def initSys (id cmdStr : String) (hosts : List HostSpec) (t : Nat) : Sys :=
  ⟨initCommand id cmdStr hosts t, []⟩

/-- States the engine can actually be in: reachable from some freshly created
Command. -/
def Reachable (s : Sys) : Prop :=
  ∃ id cmdStr hosts t, Reaches (initSys id cmdStr hosts t) s

/-! ### Projection lemmas for the atomic updates -/

theorem cancelSignalled_status (c : Command) :
    (cancelSignalled c).status = c.status := by
  unfold cancelSignalled; split <;> rfl

theorem cancelSignalled_results (c : Command) :
    (cancelSignalled c).results = c.results := by
  unfold cancelSignalled; split <;> rfl

theorem cancelSignalled_endedAt (c : Command) :
    (cancelSignalled c).endedAt = c.endedAt := by
  unfold cancelSignalled; split <;> rfl

theorem cancelSignalled_startedAt (c : Command) :
    (cancelSignalled c).startedAt = c.startedAt := by
  unfold cancelSignalled; split <;> rfl

theorem cancelSignalled_cancelAlloc (c : Command) :
    (cancelSignalled c).cancelAlloc = c.cancelAlloc := by
  unfold cancelSignalled; split <;> rfl

theorem cancelSignalled_hosts (c : Command) :
    (cancelSignalled c).hosts = c.hosts := by
  unfold cancelSignalled; split <;> rfl

theorem cancelSignalled_cancelled_of_true (c : Command)
    (h : c.cancelled = true) : (cancelSignalled c).cancelled = true := by
  unfold cancelSignalled; split
  · rfl
  · exact h

theorem finalStatus_ne_pending (b : Bool) (m : List (String × CommandResult)) :
    finalStatus b m ≠ .pending := by
  unfold finalStatus; split
  · simp
  · split <;> simp

theorem finalStatus_ne_running (b : Bool) (m : List (String × CommandResult)) :
    finalStatus b m ≠ .running := by
  unfold finalStatus; split
  · simp
  · split <;> simp

theorem mem_mapKeys_readPipeUpdate (m : List (String × CommandResult))
    (k a : String) (combined : String) :
    a ∈ mapKeys (readPipeUpdate m k combined) ↔ a = k ∨ a ∈ mapKeys m := by
  unfold readPipeUpdate
  cases mapGet m k <;> exact mem_mapKeys_mapSet _ _ _ _

theorem nodup_mapKeys_readPipeUpdate (m : List (String × CommandResult))
    (k combined : String) (h : (mapKeys m).Nodup) :
    (mapKeys (readPipeUpdate m k combined)).Nodup := by
  unfold readPipeUpdate
  cases mapGet m k <;> exact nodup_mapKeys_mapSet _ _ _ h

theorem map_host_set (execs : List Exec) (i : Nat) (h : HostSpec)
    (ph' : ExecPhase) (hget : ∃ ph, execs.get? i = some ⟨h, ph⟩) :
    (execs.set i ⟨h, ph'⟩).map Exec.host = execs.map Exec.host := by
  induction execs generalizing i with
  | nil => simp
  | cons e rest ih =>
    cases i with
    | zero =>
      obtain ⟨ph, hph⟩ := hget
      simp only [List.get?] at hph
      cases e
      injection hph with hph
      cases hph
      simp
    | succ n =>
      obtain ⟨ph, hph⟩ := hget
      simp only [List.get?] at hph
      simp [List.set, ih n ⟨ph, hph⟩]

/-! ### Reachability invariants of the engine -/

/-- Invariants holding in every reachable engine state. -/
structure Inv (s : Sys) : Prop where
  pending_execs : s.cmd.status = .pending → s.execs = []
  pending_not_ended : s.cmd.status = .pending → s.cmd.endedAt = none
  running_alloc : s.cmd.status = .running → s.cmd.cancelAlloc = true
  running_not_ended : s.cmd.status = .running → s.cmd.endedAt = none
  keys_nodup : (mapKeys s.cmd.results).Nodup
  keys_sub : ∀ k ∈ mapKeys s.cmd.results, k ∈ s.cmd.hosts.map HostSpec.name
  started_execs : s.cmd.status ≠ .pending →
      s.execs.map Exec.host = s.cmd.hosts
  finished_written : ∀ i h, s.execs.get? i = some ⟨h, ExecPhase.finished⟩ →
      h.name ∈ mapKeys s.cmd.results

theorem Inv.status_ne_pending_of_get {cmd : Command} {execs : List Exec}
    {i : Nat} {e : Exec} (hinv : Inv ⟨cmd, execs⟩)
    (hget : execs.get? i = some e) : cmd.status ≠ .pending := by
  intro hp
  have hnil := hinv.pending_execs hp
  simp only at hnil
  rw [hnil] at hget
  simp at hget

theorem Inv.host_name_mem {cmd : Command} {execs : List Exec}
    {i : Nat} {h : HostSpec} {ph : ExecPhase} (hinv : Inv ⟨cmd, execs⟩)
    (hget : execs.get? i = some ⟨h, ph⟩) :
    h.name ∈ cmd.hosts.map HostSpec.name := by
  have hmem : (⟨h, ph⟩ : Exec) ∈ execs := List.mem_iff_get?.mpr ⟨i, hget⟩
  have hh : h ∈ execs.map Exec.host := List.mem_map.mpr ⟨⟨h, ph⟩, hmem, rfl⟩
  rw [hinv.started_execs (hinv.status_ne_pending_of_get hget)] at hh
  exact List.mem_map.mpr ⟨h, hh, rfl⟩

/-- Invariant preservation for a critical section that publishes a result for
executor `i`'s host and moves the executor to a new phase. -/
theorem inv_preserve_write {cmd : Command} {execs : List Exec} {i : Nat}
    {h : HostSpec} {ph : ExecPhase}
    (hinv : Inv ⟨cmd, execs⟩) (hget : execs.get? i = some ⟨h, ph⟩)
    {m' : List (String × CommandResult)}
    (hkeys : ∀ a, a ∈ mapKeys m' ↔ a = h.name ∨ a ∈ mapKeys cmd.results)
    (hnd : (mapKeys m').Nodup) (ph' : ExecPhase) :
    Inv ⟨{ cmd with results := m' }, execs.set i ⟨h, ph'⟩⟩ := by
  have hnp : cmd.status ≠ .pending := hinv.status_ne_pending_of_get hget
  refine ⟨?_, ?_, ?_, ?_, ?_, ?_, ?_, ?_⟩
  · intro hp; exact absurd hp hnp
  · intro hp; exact absurd hp hnp
  · intro hr; exact hinv.running_alloc hr
  · intro hr; exact hinv.running_not_ended hr
  · exact hnd
  · intro k hk
    rcases (hkeys k).1 hk with hk | hk
    · subst hk; exact hinv.host_name_mem hget
    · exact hinv.keys_sub k hk
  · intro _
    exact (map_host_set execs i h ph' ⟨ph, hget⟩).trans
      (hinv.started_execs hnp)
  · intro j h' hj
    by_cases hij : i = j
    · subst hij
      rw [List.get?_set, if_pos rfl, hget] at hj
      simp only [Option.map_eq_map, Option.map_some'] at hj
      injection hj with hj
      injection hj with hj1 hj2
      rw [← hj1]
      exact (hkeys h.name).2 (Or.inl rfl)
    · rw [List.get?_set, if_neg hij] at hj
      exact (hkeys h'.name).2 (Or.inr (hinv.finished_written j h' hj))

/-- Invariant preservation for a pure control move of executor `i` (no shared
write, target phase not `finished`). -/
theorem inv_preserve_phase {cmd : Command} {execs : List Exec} {i : Nat}
    {h : HostSpec} {ph : ExecPhase}
    (hinv : Inv ⟨cmd, execs⟩) (hget : execs.get? i = some ⟨h, ph⟩)
    (ph' : ExecPhase) (hfin : ph' ≠ .finished) :
    Inv ⟨cmd, execs.set i ⟨h, ph'⟩⟩ := by
  have hnp : cmd.status ≠ .pending := hinv.status_ne_pending_of_get hget
  refine ⟨?_, ?_, ?_, ?_, ?_, ?_, ?_, ?_⟩
  · intro hp; exact absurd hp hnp
  · exact hinv.pending_not_ended
  · exact hinv.running_alloc
  · exact hinv.running_not_ended
  · exact hinv.keys_nodup
  · exact hinv.keys_sub
  · intro _
    exact (map_host_set execs i h ph' ⟨ph, hget⟩).trans
      (hinv.started_execs hnp)
  · intro j h' hj
    by_cases hij : i = j
    · subst hij
      rw [List.get?_set, if_pos rfl, hget] at hj
      simp only [Option.map_eq_map, Option.map_some'] at hj
      injection hj with hj
      injection hj with hj1 hj2
      exact absurd hj2 hfin
    · rw [List.get?_set, if_neg hij] at hj
      exact hinv.finished_written j h' hj

/-- Invariant preservation along one step of the engine. -/
theorem inv_step {s s' : Sys} {e : Event} (hinv : Inv s) (hstep : Step s e s') :
    Inv s' := by
  cases hstep with
  | start cmd execs t hst =>
    refine ⟨?_, ?_, ?_, ?_, ?_, ?_, ?_, ?_⟩
    · intro hp; simp [startedCommand] at hp
    · intro hp; simp [startedCommand] at hp
    · intro _; rfl
    · intro _
      exact hinv.pending_not_ended hst
    · exact hinv.keys_nodup
    · exact hinv.keys_sub
    · intro _
      simp only [startedCommand, List.map_map]
      have hcomp : (Exec.host ∘ fun h => (⟨h, ExecPhase.idle⟩ : Exec)) = id := rfl
      rw [hcomp, List.map_id]
    · intro j h' hj
      rw [List.get?_map] at hj
      cases hh : (cmd.hosts.get? j) with
      | none => rw [hh] at hj; simp at hj
      | some h0 =>
        rw [hh] at hj
        simp only [Option.map_some'] at hj
        injection hj with hj
        injection hj with hj1 hj2
        cases hj2
  | cancel cmd execs hst =>
    refine ⟨?_, ?_, ?_, ?_, ?_, ?_, ?_, ?_⟩
    · intro hp
      rw [cancelSignalled_status] at hp
      exact hinv.pending_execs hp
    · intro hp
      rw [cancelSignalled_status] at hp
      rw [cancelSignalled_endedAt]
      exact hinv.pending_not_ended hp
    · intro hr
      rw [cancelSignalled_status] at hr
      rw [cancelSignalled_cancelAlloc]
      exact hinv.running_alloc hr
    · intro hr
      rw [cancelSignalled_status] at hr
      rw [cancelSignalled_endedAt]
      exact hinv.running_not_ended hr
    · rw [cancelSignalled_results]; exact hinv.keys_nodup
    · rw [cancelSignalled_results, cancelSignalled_hosts]
      exact hinv.keys_sub
    · intro hnp
      rw [cancelSignalled_status] at hnp
      rw [cancelSignalled_hosts]
      exact hinv.started_execs hnp
    · intro j h' hj
      rw [cancelSignalled_results]
      exact hinv.finished_written j h' hj
  | precheckCancelled cmd execs i h hget hc =>
    refine inv_preserve_write hinv hget
      (fun a => mem_mapKeys_mapSet _ _ a _)
      (nodup_mapKeys_mapSet _ _ _ hinv.keys_nodup) _
  | precheckPass cmd execs i h hget hc =>
    exact inv_preserve_phase hinv hget _ (by simp)
  | connectFail cmd execs i h msg hget =>
    refine inv_preserve_write hinv hget
      (fun a => mem_mapKeys_mapSet _ _ a _)
      (nodup_mapKeys_mapSet _ _ _ hinv.keys_nodup) _
  | connectOk cmd execs i h hget =>
    exact inv_preserve_phase hinv hget _ (by simp)
  | setupFail cmd execs i h msg hget =>
    refine inv_preserve_write hinv hget
      (fun a => mem_mapKeys_mapSet _ _ a _)
      (nodup_mapKeys_mapSet _ _ _ hinv.keys_nodup) _
  | setupOk cmd execs i h hget =>
    exact inv_preserve_phase hinv hget _ (by simp)
  | chunkOut cmd execs i h so se data hget hdata =>
    refine inv_preserve_write hinv hget
      (fun a => mem_mapKeys_readPipeUpdate _ _ a _)
      (nodup_mapKeys_readPipeUpdate _ _ _ hinv.keys_nodup) _
  | chunkErr cmd execs i h so se data hget hdata =>
    refine inv_preserve_write hinv hget
      (fun a => mem_mapKeys_readPipeUpdate _ _ a _)
      (nodup_mapKeys_readPipeUpdate _ _ _ hinv.keys_nodup) _
  | readersJoin cmd execs i h so se hget =>
    exact inv_preserve_phase hinv hget _ (by simp)
  | waitDone cmd execs i h so se exitErr hget =>
    refine inv_preserve_write hinv hget
      (fun a => mem_mapKeys_mapSet _ _ a _)
      (nodup_mapKeys_mapSet _ _ _ hinv.keys_nodup) _
  | cancelObserved cmd execs i h so se joined hget hc =>
    refine inv_preserve_write hinv hget
      (fun a => mem_mapKeys_mapSet _ _ a _)
      (nodup_mapKeys_mapSet _ _ _ hinv.keys_nodup) _
  | finalize cmd execs t hall hst =>
    refine ⟨?_, ?_, ?_, ?_, ?_, ?_, ?_, ?_⟩
    · intro hp
      exact absurd hp (finalStatus_ne_pending _ _)
    · intro hp
      exact absurd hp (finalStatus_ne_pending _ _)
    · intro hr
      exact absurd hr (finalStatus_ne_running _ _)
    · intro hr
      exact absurd hr (finalStatus_ne_running _ _)
    · exact hinv.keys_nodup
    · exact hinv.keys_sub
    · intro _
      exact hinv.started_execs (by rw [hst]; simp)
    · exact hinv.finished_written

theorem inv_reaches {s s' : Sys} (h : Reaches s s') (hinv : Inv s) : Inv s' := by
  induction h with
  | refl => exact hinv
  | tail _ hstep ih => exact inv_step ih hstep

/-- A freshly created Command satisfies the invariants. -/
theorem inv_init (id cmdStr : String) (hosts : List HostSpec) (t : Nat) :
    Inv (initSys id cmdStr hosts t) := by
  refine ⟨?_, ?_, ?_, ?_, ?_, ?_, ?_, ?_⟩
  · intro _; rfl
  · intro _; rfl
  · intro hr; simp [initSys, initCommand] at hr
  · intro hr; simp [initSys, initCommand] at hr
  · simp [initSys, initCommand, mapKeys]
  · intro k hk; simp [initSys, initCommand, mapKeys] at hk
  · intro hp; simp [initSys, initCommand] at hp
  · intro j h' hj; simp [initSys] at hj

theorem reachable_inv {s : Sys} (h : Reachable s) : Inv s := by
  obtain ⟨id, cmdStr, hosts, t, hr⟩ := h
  exact inv_reaches hr (inv_init id cmdStr hosts t)

/-! ### Per-step monotonicity facts -/

/-- No step removes an entry from `results`: present keys stay present. -/
theorem step_keys_mono {s s' : Sys} {e : Event} (hstep : Step s e s') :
    ∀ k ∈ mapKeys s.cmd.results, k ∈ mapKeys s'.cmd.results := by
  intro k hk
  cases hstep with
  | start cmd execs t hst => exact hk
  | cancel cmd execs hst => rw [cancelSignalled_results]; exact hk
  | precheckCancelled cmd execs i h hget hc =>
    exact (mem_mapKeys_mapSet _ _ _ _).2 (Or.inr hk)
  | precheckPass cmd execs i h hget hc => exact hk
  | connectFail cmd execs i h msg hget =>
    exact (mem_mapKeys_mapSet _ _ _ _).2 (Or.inr hk)
  | connectOk cmd execs i h hget => exact hk
  | setupFail cmd execs i h msg hget =>
    exact (mem_mapKeys_mapSet _ _ _ _).2 (Or.inr hk)
  | setupOk cmd execs i h hget => exact hk
  | chunkOut cmd execs i h so se data hget hdata =>
    exact (mem_mapKeys_readPipeUpdate _ _ _ _).2 (Or.inr hk)
  | chunkErr cmd execs i h so se data hget hdata =>
    exact (mem_mapKeys_readPipeUpdate _ _ _ _).2 (Or.inr hk)
  | readersJoin cmd execs i h so se hget => exact hk
  | waitDone cmd execs i h so se exitErr hget =>
    exact (mem_mapKeys_mapSet _ _ _ _).2 (Or.inr hk)
  | cancelObserved cmd execs i h so se joined hget hc =>
    exact (mem_mapKeys_mapSet _ _ _ _).2 (Or.inr hk)
  | finalize cmd execs t hall hst => exact hk

/-- Once left, the pending status is never re-entered. -/
theorem step_status_ne_pending {s s' : Sys} {e : Event} (hstep : Step s e s')
    (hnp : s.cmd.status ≠ .pending) : s'.cmd.status ≠ .pending := by
  cases hstep with
  | start cmd execs t hst => exact absurd hst hnp
  | cancel cmd execs hst =>
    rw [cancelSignalled_status]; exact hnp
  | finalize cmd execs t hall hst => exact finalStatus_ne_pending _ _
  | precheckCancelled cmd execs i h hget hc => exact hnp
  | precheckPass cmd execs i h hget hc => exact hnp
  | connectFail cmd execs i h msg hget => exact hnp
  | connectOk cmd execs i h hget => exact hnp
  | setupFail cmd execs i h msg hget => exact hnp
  | setupOk cmd execs i h hget => exact hnp
  | chunkOut cmd execs i h so se data hget hdata => exact hnp
  | chunkErr cmd execs i h so se data hget hdata => exact hnp
  | readersJoin cmd execs i h so se hget => exact hnp
  | waitDone cmd execs i h so se exitErr hget => exact hnp
  | cancelObserved cmd execs i h so se joined hget hc => exact hnp

/-- Once the context is cancelled it stays cancelled (a `Start` from pending
would allocate a fresh context, but pending is never re-entered). -/
theorem step_cancelled_mono {s s' : Sys} {e : Event} (hstep : Step s e s')
    (hnp : s.cmd.status ≠ .pending) (hc : s.cmd.cancelled = true) :
    s'.cmd.cancelled = true := by
  cases hstep with
  | start cmd execs t hst => exact absurd hst hnp
  | cancel cmd execs hst => exact cancelSignalled_cancelled_of_true _ hc
  | finalize cmd execs t hall hst => exact hc
  | precheckCancelled cmd execs i h hget hc2 => exact hc
  | precheckPass cmd execs i h hget hc2 => exact hc
  | connectFail cmd execs i h msg hget => exact hc
  | connectOk cmd execs i h hget => exact hc
  | setupFail cmd execs i h msg hget => exact hc
  | setupOk cmd execs i h hget => exact hc
  | chunkOut cmd execs i h so se data hget hdata => exact hc
  | chunkErr cmd execs i h so se data hget hdata => exact hc
  | readersJoin cmd execs i h so se hget => exact hc
  | waitDone cmd execs i h so se exitErr hget => exact hc
  | cancelObserved cmd execs i h so se joined hget hc2 => exact hc

/-- Terminal states with all executors joined are stuck: nothing in the
engine fires again, so the final status and `endedAt` are computed exactly
once. -/
theorem terminal_stuck {s : Sys} (hterm : s.cmd.status.isTerminal = true)
    (hall : ∀ e ∈ s.execs, e.phase = .finished) :
    ∀ (e : Event) (s' : Sys), ¬ Step s e s' := by
  intro e s' hstep
  cases hstep with
  | start cmd execs t hst =>
    rw [hst] at hterm; simp [CommandStatus.isTerminal] at hterm
  | cancel cmd execs hst =>
    rw [hst] at hterm; simp [CommandStatus.isTerminal] at hterm
  | finalize cmd execs t hall2 hst =>
    rw [hst] at hterm; simp [CommandStatus.isTerminal] at hterm
  | precheckCancelled cmd execs i h hget hc =>
    have := hall _ (List.mem_iff_get?.mpr ⟨i, hget⟩); simp at this
  | precheckPass cmd execs i h hget hc =>
    have := hall _ (List.mem_iff_get?.mpr ⟨i, hget⟩); simp at this
  | connectFail cmd execs i h msg hget =>
    have := hall _ (List.mem_iff_get?.mpr ⟨i, hget⟩); simp at this
  | connectOk cmd execs i h hget =>
    have := hall _ (List.mem_iff_get?.mpr ⟨i, hget⟩); simp at this
  | setupFail cmd execs i h msg hget =>
    have := hall _ (List.mem_iff_get?.mpr ⟨i, hget⟩); simp at this
  | setupOk cmd execs i h hget =>
    have := hall _ (List.mem_iff_get?.mpr ⟨i, hget⟩); simp at this
  | chunkOut cmd execs i h so se data hget hdata =>
    have := hall _ (List.mem_iff_get?.mpr ⟨i, hget⟩); simp at this
  | chunkErr cmd execs i h so se data hget hdata =>
    have := hall _ (List.mem_iff_get?.mpr ⟨i, hget⟩); simp at this
  | readersJoin cmd execs i h so se hget =>
    have := hall _ (List.mem_iff_get?.mpr ⟨i, hget⟩); simp at this
  | waitDone cmd execs i h so se exitErr hget =>
    have := hall _ (List.mem_iff_get?.mpr ⟨i, hget⟩); simp at this
  | cancelObserved cmd execs i h so se joined hget hc =>
    have := hall _ (List.mem_iff_get?.mpr ⟨i, hget⟩); simp at this

/-! ### Small string facts used for the live-streaming claim -/

theorem string_eq_empty_of_length_eq_zero (a : String) (h : a.length = 0) :
    a = "" := by
  cases a with
  | mk data =>
    simp [String.length] at h
    simp [h]

theorem append_append_ne_empty_of_mid (a b c : String) (hb : b ≠ "") :
    (a ++ b) ++ c ≠ "" := by
  intro he
  have hl := congrArg String.length he
  rw [String.length_append, String.length_append] at hl
  simp only [show ("" : String).length = 0 from rfl] at hl
  exact hb (string_eq_empty_of_length_eq_zero b (by omega))

theorem append_append_ne_empty_of_last (a b c : String) (hb : b ≠ "") :
    a ++ (c ++ b) ≠ "" := by
  intro he
  have hl := congrArg String.length he
  rw [String.length_append, String.length_append] at hl
  simp only [show ("" : String).length = 0 from rfl] at hl
  exact hb (string_eq_empty_of_length_eq_zero b (by omega))

theorem mapGet_readPipeUpdate_self (m : List (String × CommandResult))
    (k combined : String) :
    ∃ r, mapGet (readPipeUpdate m k combined) k = some r
      ∧ r.result = combined := by
  unfold readPipeUpdate
  cases mapGet m k with
  | none => exact ⟨_, mapGet_mapSet_self _ _ _, rfl⟩
  | some r0 => exact ⟨_, mapGet_mapSet_self _ _ _, rfl⟩

theorem toState_results (c : Command) :
    (Command.toState c).results = c.results := rfl

theorem toState_status (c : Command) :
    (Command.toState c).status = c.status := rfl

theorem finalStatus_isTerminal (b : Bool) (m : List (String × CommandResult)) :
    (finalStatus b m).isTerminal = true := by
  unfold finalStatus
  split
  · rfl
  · split <;> rfl

/-! ### The Runner registry (`commands/runner.go`) -/

/-- The `runner` struct: the stored `commands` map, modelled as the list of
stored Commands in iteration order (Go map iteration order is arbitrary, so
theorems may not depend on this order beyond determinism). -/
structure Runner where
  commands : List Command
deriving DecidableEq, Repr

/-- `Runner.GetCommand`: lookup by id; "command not found" error when the id
is unknown. -/
def Runner.getCommand (r : Runner) (commandID : String) :
    Except String Command :=
  match r.commands.find? (fun c => c.id == commandID) with
  | some c => .ok c
  | none => .error ("command not found: " ++ commandID)

/-- The loop body of `GetMostRecentCommand`: keep `cmd` when
`cmd.createdAt.After(mostRecent.createdAt)`, i.e. strictly later. -/
def moreRecent (acc cmd : Command) : Command :=
  if acc.createdAt < cmd.createdAt then cmd else acc

/-- `Runner.GetMostRecentCommand`: "no commands found" on an empty registry,
otherwise the stored Command with the strictly-latest `createdAt` (the first
one in iteration order among ties). -/
def Runner.getMostRecentCommand (r : Runner) : Except String Command :=
  match r.commands with
  | [] => .error "no commands found"
  | c :: rest => .ok (rest.foldl moreRecent c)

/-! ### The `get_command_status` tool handler (`tools/get_command_status.go`) -/

/-- A tool call outcome: `NewToolResultError` or a structured snapshot. -/
inductive ToolResult
  | errMsg (msg : String)
  | structured (st : CommandState)
deriving DecidableEq, Repr

/-- The command-resolution prefix of `GetCommandStatus.Handler`:
`request.GetString("command_id", "")` yields `""` when the argument is
missing, in which case the most recent command is used; otherwise lookup by
id. -/
def getCommandStatusResolve (r : Runner) (commandID : String) :
    Except String Command :=
  if commandID = "" then r.getMostRecentCommand else r.getCommand commandID

/-- `GetCommandStatus.Handler` on the non-waiting path (`wait` absent or
false): resolve the command, then return either the error text or the
structured `ToState` snapshot. -/
def getCommandStatusHandler (r : Runner) (commandID : String) : ToolResult :=
  match getCommandStatusResolve r commandID with
  | .error e => .errMsg e
  | .ok cmd => .structured cmd.toState

theorem foldl_moreRecent_mem (c : Command) (l : List Command) :
    l.foldl moreRecent c ∈ c :: l := by
  induction l generalizing c with
  | nil => simp
  | cons d rest ih =>
    simp only [List.foldl_cons]
    have hmem := ih (moreRecent c d)
    rcases List.mem_cons.mp hmem with hh | hh
    · rw [hh]
      unfold moreRecent
      split
      · exact List.mem_cons_of_mem _ (List.mem_cons_self _ _)
      · exact List.mem_cons_self _ _
    · exact List.mem_cons_of_mem _ (List.mem_cons_of_mem _ hh)

theorem le_moreRecent_left (c d : Command) :
    c.createdAt ≤ (moreRecent c d).createdAt := by
  unfold moreRecent
  split
  · omega
  · exact le_refl _

theorem le_moreRecent_right (c d : Command) :
    d.createdAt ≤ (moreRecent c d).createdAt := by
  unfold moreRecent
  split
  · exact le_refl _
  · omega

theorem foldl_moreRecent_le (c : Command) (l : List Command) :
    ∀ x ∈ c :: l, x.createdAt ≤ (l.foldl moreRecent c).createdAt := by
  induction l generalizing c with
  | nil =>
    intro x hx
    rcases List.mem_cons.mp hx with hh | hh
    · exact hh ▸ le_refl _
    · simp at hh
  | cons d rest ih =>
    intro x hx
    simp only [List.foldl_cons]
    rcases List.mem_cons.mp hx with hh | hh
    · rw [hh]
      exact le_trans (le_moreRecent_left c d)
        (ih (moreRecent c d) _ (List.mem_cons_self _ _))
    · rcases List.mem_cons.mp hh with hh2 | hh2
      · rw [hh2]
        exact le_trans (le_moreRecent_right c d)
          (ih (moreRecent c d) _ (List.mem_cons_self _ _))
      · exact ih (moreRecent c d) x (List.mem_cons_of_mem _ hh2)

/-! ### The bounded wait loops
(`GetCommandStatus.waitForCompletion` in `tools/get_command_status.go` and
`PerformCommand.waitForCommandOrBackground` in `tools/perform_command.go` —
the two loops are structurally identical: `time.NewTicker(500ms)`, terminal
status or `time.Since(startTime) >= 30s` checked at each tick, the request
context checked in the same select). -/

/-- The outcome of a wait loop: `"request cancelled"` when the request's own
context wins the select, otherwise a `ToState` snapshot. -/
inductive WaitResult
  | aborted
  | snapshot (st : CommandState)
deriving DecidableEq, Repr

/-- The wait loop, discretized at ticker fires.  Tick `k` is the `k`-th fire
of the 500 ms ticker, i.e. `500·k` ms after the loop starts (the first fire is
at `k = 1` — `select` blocks on `ticker.C`, there is no status check before
it).  The deadline test `time.Since(startTime) >= 30s` holds at tick `k` iff
`k ≥ 60`; `r` is the number of ticks remaining until tick 60, so the `r = 0`
branch is the deadline-reached iteration, which returns the snapshot without
consulting the status.  `reqCancelled k` tells whether the request context is
done by tick `k`; `cmdAt k` is the Command's state at tick `k`.  The returned
`Nat` is the tick at which the loop exited. -/
def waitTicks (reqCancelled : Nat → Bool) (cmdAt : Nat → Command) :
    Nat → Nat → Nat × WaitResult
  | k, 0 =>
    if reqCancelled k then (k, .aborted)
    else (k, .snapshot ((cmdAt k).toState))
  | k, r + 1 =>
    if reqCancelled k then (k, .aborted)
    else if (cmdAt k).status.isTerminal then (k, .snapshot ((cmdAt k).toState))
    else waitTicks reqCancelled cmdAt (k + 1) r

/-- The whole 30-second wait: ticks 1 through 60 (59 ticks strictly before
the deadline tick). -/
def waitForCompletion (reqCancelled : Nat → Bool) (cmdAt : Nat → Command) :
    Nat × WaitResult :=
  waitTicks reqCancelled cmdAt 1 59

theorem waitTicks_deadline (reqCancelled : Nat → Bool) (cmdAt : Nat → Command)
    (r : Nat) : ∀ (k : Nat),
    (∀ j, reqCancelled j = false) →
    (∀ j, k ≤ j → j ≤ k + r → (cmdAt j).status.isTerminal = false) →
    waitTicks reqCancelled cmdAt k r =
      (k + r, .snapshot ((cmdAt (k + r)).toState)) := by
  induction r with
  | zero =>
    intro k hreq _
    simp [waitTicks, hreq k]
  | succ r ih =>
    intro k hreq hrun
    have hterm : (cmdAt k).status.isTerminal = false :=
      hrun k (le_refl k) (by omega)
    have ihk := ih (k + 1) hreq (fun j hj1 hj2 => hrun j (by omega) (by omega))
    have harith : k + 1 + r = k + (r + 1) := by omega
    rw [harith] at ihk
    simp only [waitTicks, hreq k, hterm, Bool.false_eq_true, if_false, ihk]

theorem waitTicks_congr (reqCancelled : Nat → Bool)
    (cmdAt cmdAt' : Nat → Command) (r : Nat) : ∀ (k : Nat),
    (∀ j, k ≤ j → j ≤ k + r → cmdAt' j = cmdAt j) →
    waitTicks reqCancelled cmdAt' k r = waitTicks reqCancelled cmdAt k r := by
  induction r with
  | zero =>
    intro k hagree
    simp [waitTicks, hagree k (le_refl k) (by omega)]
  | succ r ih =>
    intro k hagree
    have hk := hagree k (le_refl k) (by omega)
    simp only [waitTicks, hk]
    split
    · rfl
    · split
      · rfl
      · exact ih (k + 1) (fun j hj1 hj2 => hagree j (by omega) (by omega))

/-! ### Concrete engine runs used to witness the theorems -/

/-- Trace A: one host, streaming.  `start`, pre-check pass, connect, session
set up, one stdout chunk "abc", then `Cancel` and the executor observing the
cancellation. -/
def hostA : HostSpec := ⟨"g", "web"⟩

def cmdA1 : Command :=
  { id := "cmdA", status := .running, command := "mk", hosts := [hostA],
    results := [], createdAt := 0, startedAt := some 1, endedAt := none,
    err := none, cancelAlloc := true, cancelled := false }

def sysA0 : Sys := initSys "cmdA" "mk" [hostA] 0

def sysA1 : Sys := ⟨cmdA1, [⟨hostA, .idle⟩]⟩

def sysA2 : Sys := ⟨cmdA1, [⟨hostA, .connecting⟩]⟩

def sysA3 : Sys := ⟨cmdA1, [⟨hostA, .sessionReady⟩]⟩

def sysA4 : Sys := ⟨cmdA1, [⟨hostA, .streaming "" "" false⟩]⟩

def cmdA5 : Command :=
  { cmdA1 with results := [("web", ⟨"web", "abc", none⟩)] }

def sysA5 : Sys := ⟨cmdA5, [⟨hostA, .streaming "abc" "" false⟩]⟩

def cmdA6 : Command := { cmdA5 with cancelled := true }

def sysA6 : Sys := ⟨cmdA6, [⟨hostA, .streaming "abc" "" false⟩]⟩

def cmdA7 : Command :=
  { cmdA6 with results := [("web", ⟨"web", "", some "command cancelled"⟩)] }

def sysA7 : Sys := ⟨cmdA7, [⟨hostA, .finished⟩]⟩

/-- Trace B: two targets in different groups sharing the host name "web";
both fail to connect, then the dispatch joins and finalizes. -/
def hostB1 : HostSpec := ⟨"g1", "web"⟩

def hostB2 : HostSpec := ⟨"g2", "web"⟩

def cmdB1 : Command :=
  { id := "cmdB", status := .running, command := "ls",
    hosts := [hostB1, hostB2], results := [], createdAt := 0,
    startedAt := some 1, endedAt := none, err := none,
    cancelAlloc := true, cancelled := false }

def sysB0 : Sys := initSys "cmdB" "ls" [hostB1, hostB2] 0

def sysB1 : Sys := ⟨cmdB1, [⟨hostB1, .idle⟩, ⟨hostB2, .idle⟩]⟩

def sysB2 : Sys := ⟨cmdB1, [⟨hostB1, .connecting⟩, ⟨hostB2, .idle⟩]⟩

def cmdB3 : Command :=
  { cmdB1 with results :=
      [("web", ⟨"web", "", some "failed to connect: boom"⟩)] }

def sysB3 : Sys := ⟨cmdB3, [⟨hostB1, .finished⟩, ⟨hostB2, .idle⟩]⟩

def sysB4 : Sys := ⟨cmdB3, [⟨hostB1, .finished⟩, ⟨hostB2, .connecting⟩]⟩

def sysB5 : Sys := ⟨cmdB3, [⟨hostB1, .finished⟩, ⟨hostB2, .finished⟩]⟩

def cmdB6 : Command := { cmdB3 with status := .failed, endedAt := some 2 }

def sysB6 : Sys := ⟨cmdB6, [⟨hostB1, .finished⟩, ⟨hostB2, .finished⟩]⟩

/-- Trace C: one host; `Cancel` arrives before the executor has done any
work (it is still at its pre-dispatch check). -/
def hostC : HostSpec := ⟨"g", "w9"⟩

def cmdC1 : Command :=
  { id := "cmdC", status := .running, command := "du", hosts := [hostC],
    results := [], createdAt := 0, startedAt := some 1, endedAt := none,
    err := none, cancelAlloc := true, cancelled := false }

def sysC0 : Sys := initSys "cmdC" "du" [hostC] 0

def sysC1 : Sys := ⟨cmdC1, [⟨hostC, .idle⟩]⟩

def cmdC2 : Command := { cmdC1 with cancelled := true }

def sysC2 : Sys := ⟨cmdC2, [⟨hostC, .idle⟩]⟩

def cmdC3 : Command :=
  { cmdC2 with results := [("w9", ⟨"w9", "", some "command cancelled"⟩)] }

def sysC3 : Sys := ⟨cmdC3, [⟨hostC, .finished⟩]⟩

/-- A standalone running Command (for the wait-loop witnesses). -/
def cmdRunningW : Command :=
  { id := "cmdW", status := .running, command := "sleep 90", hosts := [hostA],
    results := [], createdAt := 0, startedAt := some 1, endedAt := none,
    err := none, cancelAlloc := true, cancelled := false }

/-- A standalone completed Command (for the wait-loop counterexample). -/
def cmdDoneW : Command :=
  { id := "cmdD", status := .completed, command := "true", hosts := [hostA],
    results := [("web", ⟨"web", "ok", none⟩)], createdAt := 0,
    startedAt := some 1, endedAt := some 2, err := none,
    cancelAlloc := true, cancelled := false }

/-- A two-command registry (for the most-recent-command witness). -/
def cmdReg1 : Command := initCommand "id1" "ls" [hostA] 5

def cmdReg2 : Command := initCommand "id2" "du" [hostA] 9

def runnerW : Runner := ⟨[cmdReg1, cmdReg2]⟩

theorem stepA01 : Step sysA0 (.start 1) sysA1 := Step.start _ _ 1 rfl

theorem stepA12 : Step sysA1 (.precheckPass 0) sysA2 :=
  Step.precheckPass _ _ 0 hostA rfl rfl

theorem stepA23 : Step sysA2 (.connectOk 0) sysA3 :=
  Step.connectOk _ _ 0 hostA rfl

theorem stepA34 : Step sysA3 (.setupOk 0) sysA4 :=
  Step.setupOk _ _ 0 hostA rfl

theorem stepA45 : Step sysA4 (.chunkOut 0 "abc") sysA5 :=
  Step.chunkOut _ _ 0 hostA "" "" "abc" rfl (by decide)

theorem stepA56 : Step sysA5 .cancel sysA6 := Step.cancel _ _ rfl

theorem stepA67 : Step sysA6 (.cancelObserved 0) sysA7 :=
  Step.cancelObserved _ _ 0 hostA "abc" "" false rfl rfl

theorem reachesA5 : Reaches sysA0 sysA5 :=
  ((((Reaches.refl _).tail stepA01).tail stepA12).tail stepA23).tail
    stepA34 |>.tail stepA45

theorem reachableA5 : Reachable sysA5 := ⟨"cmdA", "mk", [hostA], 0, reachesA5⟩

theorem reachesA7 : Reaches sysA0 sysA7 :=
  (reachesA5.tail stepA56).tail stepA67

theorem reachableA4 : Reachable sysA4 :=
  ⟨"cmdA", "mk", [hostA], 0,
    (((Reaches.refl _).tail stepA01).tail stepA12).tail stepA23 |>.tail stepA34⟩

theorem stepB01 : Step sysB0 (.start 1) sysB1 := Step.start _ _ 1 rfl

theorem stepB12 : Step sysB1 (.precheckPass 0) sysB2 :=
  Step.precheckPass _ _ 0 hostB1 rfl rfl

theorem stepB23 : Step sysB2 (.connectFail 0 "boom") sysB3 :=
  Step.connectFail _ _ 0 hostB1 "boom" rfl

theorem stepB34 : Step sysB3 (.precheckPass 1) sysB4 :=
  Step.precheckPass _ _ 1 hostB2 rfl rfl

theorem stepB45 : Step sysB4 (.connectFail 1 "boom") sysB5 :=
  Step.connectFail _ _ 1 hostB2 "boom" rfl

theorem stepB56 : Step sysB5 (.finalize 2) sysB6 :=
  Step.finalize _ _ 2 (by decide) rfl

theorem reachesB5 : Reaches sysB0 sysB5 :=
  ((((Reaches.refl _).tail stepB01).tail stepB12).tail stepB23).tail
    stepB34 |>.tail stepB45

theorem reachableB5 : Reachable sysB5 :=
  ⟨"cmdB", "ls", [hostB1, hostB2], 0, reachesB5⟩

theorem reachableB6 : Reachable sysB6 :=
  ⟨"cmdB", "ls", [hostB1, hostB2], 0, reachesB5.tail stepB56⟩

theorem stepC01 : Step sysC0 (.start 1) sysC1 := Step.start _ _ 1 rfl

theorem stepC12 : Step sysC1 .cancel sysC2 := Step.cancel _ _ rfl

theorem stepC23 : Step sysC2 (.precheckCancelled 0) sysC3 :=
  Step.precheckCancelled _ _ 0 hostC rfl rfl

theorem reachableC2 : Reachable sysC2 :=
  ⟨"cmdC", "du", [hostC], 0, ((Reaches.refl _).tail stepC01).tail stepC12⟩

/-- C2: after every per-host executor has joined, the final status is
computed exactly once: Cancelled if the cancellation signal was raised at
join time (even if hosts succeeded), else Failed if at least one HostResult
carries an error, else Completed; `endedAt` is set exactly once at that
point (it was unset before, and the resulting terminal state admits no
further engine step). -/
theorem finalize_status_rule {s s' : Sys} {t : Nat}
    (hre : Reachable s) (hstep : Step s (.finalize t) s') :
    (∀ e ∈ s.execs, e.phase = .finished)
    ∧ s.cmd.status = .running
    ∧ s.cmd.endedAt = none
    ∧ s'.cmd.endedAt = some t
    ∧ s'.cmd.status = (if s.cmd.cancelled = true then CommandStatus.cancelled
        else if anyErr s.cmd.results = true then CommandStatus.failed
        else CommandStatus.completed)
    ∧ s'.cmd.results = s.cmd.results
    ∧ (∀ (e2 : Event) (s'' : Sys), ¬ Step s' e2 s'') := by
  cases hstep with
  | finalize cmd execs t hall hst =>
    refine ⟨hall, hst, (reachable_inv hre).running_not_ended hst, rfl,
      ?_, rfl, ?_⟩
    · simp only [finalizedCommand, finalStatus]
    · refine terminal_stuck ?_ hall
      show (finalizedCommand cmd t).status.isTerminal = true
      exact finalStatus_isTerminal cmd.cancelled cmd.results

theorem finalize_status_rule_witness :
    Reachable sysB5
  ∧ Step sysB5 (.finalize 2) sysB6
  ∧ sysB6.cmd.endedAt = some 2
  ∧ sysB6.cmd.status = .failed := by
  refine ⟨reachableB5, stepB56,
    (finalize_status_rule reachableB5 stepB56).2.2.2.1,
    ((finalize_status_rule reachableB5 stepB56).2.2.2.2.1).trans (by decide)⟩

/-- C5: `Start` succeeds iff the Command is Pending; on success it allocates
the cancellation signal, sets status to Running and `startedAt` to now, and
returns without waiting for hosts (the spawned executors are all still idle
and `results` is untouched at the point `Start` returns); on failure it
returns the StateError and leaves every field unchanged. -/
theorem start_iff_pending (c : Command) (t : Nat) :
    ((Command.start c t).1 = none ↔ c.status = .pending)
    ∧ (c.status = .pending →
        (Command.start c t).2.status = .running
        ∧ (Command.start c t).2.startedAt = some t
        ∧ (Command.start c t).2.cancelAlloc = true
        ∧ (Command.start c t).2.id = c.id
        ∧ (Command.start c t).2.command = c.command
        ∧ (Command.start c t).2.hosts = c.hosts
        ∧ (Command.start c t).2.results = c.results
        ∧ (Command.start c t).2.createdAt = c.createdAt
        ∧ (Command.start c t).2.endedAt = c.endedAt)
    ∧ (c.status ≠ .pending →
        (Command.start c t).1 =
          some ("command " ++ c.id ++ " is not in pending state")
        ∧ (Command.start c t).2 = c)
    ∧ (∀ (execs : List Exec) (s' : Sys), Step ⟨c, execs⟩ (.start t) s' →
        s'.cmd = startedCommand c t
        ∧ s'.execs = c.hosts.map (fun h => ⟨h, ExecPhase.idle⟩)
        ∧ s'.cmd.results = c.results
        ∧ ∀ ex ∈ s'.execs, ex.phase = .idle) := by
  refine ⟨?_, ?_, ?_, ?_⟩
  · constructor
    · intro h1
      by_contra hp
      simp [Command.start, hp] at h1
    · intro hp
      simp [Command.start, hp]
  · intro hp
    simp [Command.start, hp, startedCommand]
  · intro hp
    simp [Command.start, hp]
  · intro execs s' hstep
    cases hstep with
    | start cmd execs t hst =>
      refine ⟨rfl, rfl, rfl, ?_⟩
      intro ex hex
      simp only [List.mem_map] at hex
      obtain ⟨h0, _, hh⟩ := hex
      rw [← hh]

theorem start_iff_pending_witness :
    cmdReg1.status = .pending
  ∧ (Command.start cmdReg1 7).1 = none
  ∧ (Command.start cmdReg1 7).2.status = .running
  ∧ (Command.start cmdReg1 7).2.startedAt = some 7
  ∧ cmdRunningW.status ≠ .pending
  ∧ (Command.start cmdRunningW 7).2 = cmdRunningW := by
  refine ⟨rfl, (start_iff_pending cmdReg1 7).1.mpr rfl,
    ((start_iff_pending cmdReg1 7).2.1 rfl).1,
    ((start_iff_pending cmdReg1 7).2.1 rfl).2.1,
    by decide,
    ((start_iff_pending cmdRunningW 7).2.2.1 (by decide)).2⟩

/-- C6: `Cancel` succeeds iff the Command is Running (Pending and every
terminal state, including Cancelled, get the StateError with no mutation);
on success it raises the cancellation signal and changes nothing else — in
particular not the status. -/
theorem cancel_iff_running (s : Sys) (hre : Reachable s) :
    ((Command.cancel s.cmd).1 = none ↔ s.cmd.status = .running)
    ∧ (s.cmd.status = .running →
        (Command.cancel s.cmd).2.cancelled = true
        ∧ (Command.cancel s.cmd).2.status = s.cmd.status
        ∧ (Command.cancel s.cmd).2.results = s.cmd.results
        ∧ (Command.cancel s.cmd).2.startedAt = s.cmd.startedAt
        ∧ (Command.cancel s.cmd).2.endedAt = s.cmd.endedAt
        ∧ (Command.cancel s.cmd).2.id = s.cmd.id
        ∧ (Command.cancel s.cmd).2.hosts = s.cmd.hosts)
    ∧ (s.cmd.status ≠ .running →
        (Command.cancel s.cmd).1 =
          some ("command " ++ s.cmd.id ++ " is not running")
        ∧ (Command.cancel s.cmd).2 = s.cmd) := by
  refine ⟨⟨?_, ?_⟩, ?_, ?_⟩
  · intro h1
    by_contra hp
    simp [Command.cancel, hp] at h1
  · intro hp
    simp [Command.cancel, hp]
  · intro hp
    have halloc : s.cmd.cancelAlloc = true := (reachable_inv hre).running_alloc hp
    simp [Command.cancel, hp, cancelSignalled, halloc]
  · intro hp
    simp [Command.cancel, hp]

theorem cancel_iff_running_witness :
    sysA5.cmd.status = .running
  ∧ (Command.cancel sysA5.cmd).1 = none
  ∧ (Command.cancel sysA5.cmd).2.cancelled = true
  ∧ (Command.cancel sysA5.cmd).2.status = .running
  ∧ cmdDoneW.status ≠ .running := by
  refine ⟨rfl, (cancel_iff_running sysA5 reachableA5).1.mpr rfl,
    ((cancel_iff_running sysA5 reachableA5).2.1 rfl).1,
    ((cancel_iff_running sysA5 reachableA5).2.1 rfl).2.1.trans rfl,
    by decide⟩

theorem toFinset_card_eq_dedup_length (l : List String) :
    l.toFinset.card = l.dedup.length := by
  rw [Finset.card, List.toFinset_val]
  simp

/-- C1: after every chunk read from a host's stdout or stderr stream, the
executor updates that host's entry in `results` under the Command's lock, so
a `ToState` snapshot taken right after (the Command still Running) shows the
partial output accumulated so far — a non-empty entry, not an empty results
map. -/
theorem chunk_updates_snapshot {s s' : Sys} {i : Nat} {h : HostSpec}
    {so se data : String}
    (hget : s.execs.get? i = some ⟨h, .streaming so se false⟩) :
    (Step s (.chunkOut i data) s' →
      ∃ r, mapGet (Command.toState s'.cmd).results h.name = some r
        ∧ r.result = (so ++ data) ++ se
        ∧ r.result ≠ ""
        ∧ (Command.toState s'.cmd).status = s.cmd.status
        ∧ (s.cmd.status = .running →
            (Command.toState s'.cmd).status = .running))
    ∧ (Step s (.chunkErr i data) s' →
      ∃ r, mapGet (Command.toState s'.cmd).results h.name = some r
        ∧ r.result = so ++ (se ++ data)
        ∧ r.result ≠ ""
        ∧ (Command.toState s'.cmd).status = s.cmd.status
        ∧ (s.cmd.status = .running →
            (Command.toState s'.cmd).status = .running)) := by
  constructor
  · intro hstep
    cases hstep with
    | chunkOut cmd execs i h0 so0 se0 data hget0 hdata =>
      rw [hget0] at hget
      injection hget with hget
      injection hget with hh hph
      injection hph with hso hse hjo
      rw [← hh, ← hso, ← hse]
      obtain ⟨r, hr, hres⟩ :=
        mapGet_readPipeUpdate_self cmd.results h0.name ((so0 ++ data) ++ se0)
      exact ⟨r, hr, hres, by
        rw [hres]; exact append_append_ne_empty_of_mid so0 data se0 hdata,
        rfl, fun hrun => hrun⟩
  · intro hstep
    cases hstep with
    | chunkErr cmd execs i h0 so0 se0 data hget0 hdata =>
      rw [hget0] at hget
      injection hget with hget
      injection hget with hh hph
      injection hph with hso hse hjo
      rw [← hh, ← hso, ← hse]
      obtain ⟨r, hr, hres⟩ :=
        mapGet_readPipeUpdate_self cmd.results h0.name (so0 ++ (se0 ++ data))
      exact ⟨r, hr, hres, by
        rw [hres]; exact append_append_ne_empty_of_last so0 data se0 hdata,
        rfl, fun hrun => hrun⟩

theorem chunk_updates_snapshot_witness :
    Reachable sysA4
  ∧ sysA4.cmd.status = .running
  ∧ Step sysA4 (.chunkOut 0 "abc") sysA5
  ∧ mapGet (Command.toState sysA5.cmd).results "web" =
      some ⟨"web", "abc", none⟩
  ∧ (Command.toState sysA5.cmd).status = .running := by
  have happ := (@chunk_updates_snapshot sysA4 sysA5 0 hostA "" "" "abc"
    rfl).1 stepA45
  obtain ⟨r, hr, hres, hne, hst, hrun⟩ := happ
  exact ⟨reachableA4, rfl, stepA45, by decide, hrun rfl⟩

/-- C3 (demonstration of the code bug): the streaming update publishes the
buffered chunk "abc" for host "web" while the Command is Running, but when
cancellation wins the race the executor records `string(output)` — and the
`output` variable is only assigned after BOTH pipe readers reach EOF, so the
entry is overwritten with the empty string together with error "command
cancelled": the buffered output is lost and the entry's output shrinks. -/
theorem cancel_race_empties_output :
    Reachable sysA5
  ∧ mapGet sysA5.cmd.results "web" = some ⟨"web", "abc", none⟩
  ∧ Step sysA5 .cancel sysA6
  ∧ Step sysA6 (.cancelObserved 0) sysA7
  ∧ mapGet sysA7.cmd.results "web" =
      some ⟨"web", "", some "command cancelled"⟩
  ∧ ("" : String).length < ("abc" : String).length :=
  ⟨reachableA5, by decide, stepA56, stepA67, by decide, by decide⟩

/-- C4 as stated is false: `results` is keyed by host *name* only, and two
targets in different groups may share a name, in which case their entries
collapse.  Here a Command with 2 targets joins with 1 entry. -/
theorem results_collapse_on_duplicate_names :
    Reachable sysB6
  ∧ sysB6.cmd.status ≠ .pending
  ∧ (∀ e ∈ sysB6.execs, e.phase = .finished)
  ∧ sysB6.cmd.hosts.length = 2
  ∧ sysB6.cmd.results.length = 1 :=
  ⟨reachableB6, by decide, by decide, by decide, by decide⟩

/-- C4 amended: once dispatch fully joins, `results` has exactly one entry
per *distinct target name* — exactly N entries when the N targets have
pairwise-distinct names — and no step ever removes an entry. -/
theorem results_one_entry_per_distinct_name {s : Sys}
    (hre : Reachable s) (hnp : s.cmd.status ≠ .pending)
    (hall : ∀ e ∈ s.execs, e.phase = .finished) :
    (mapKeys s.cmd.results).toFinset =
      (s.cmd.hosts.map HostSpec.name).toFinset
    ∧ s.cmd.results.length = (s.cmd.hosts.map HostSpec.name).dedup.length
    ∧ ((s.cmd.hosts.map HostSpec.name).Nodup →
        s.cmd.results.length = s.cmd.hosts.length)
    ∧ (∀ (s₁ : Sys) (e : Event) (s₂ : Sys), Step s₁ e s₂ →
        ∀ k ∈ mapKeys s₁.cmd.results, k ∈ mapKeys s₂.cmd.results) := by
  have hinv := reachable_inv hre
  have hsub2 : ∀ n ∈ s.cmd.hosts.map HostSpec.name,
      n ∈ mapKeys s.cmd.results := by
    intro n hn
    obtain ⟨h0, hh0, hh0n⟩ := List.mem_map.mp hn
    rw [← hinv.started_execs hnp] at hh0
    obtain ⟨ex, hexmem, hexh⟩ := List.mem_map.mp hh0
    obtain ⟨j, hj⟩ := List.mem_iff_get?.mp hexmem
    have hphase := hall ex hexmem
    obtain ⟨exh, exph⟩ := ex
    have hexh2 : exh = h0 := hexh
    have hph2 : exph = ExecPhase.finished := hphase
    rw [hexh2, hph2] at hj
    rw [← hh0n]
    exact hinv.finished_written j h0 hj
  have hfins : (mapKeys s.cmd.results).toFinset =
      (s.cmd.hosts.map HostSpec.name).toFinset := by
    ext a
    simp only [List.mem_toFinset]
    exact ⟨fun ha => hinv.keys_sub a ha, fun ha => hsub2 a ha⟩
  refine ⟨hfins, ?_, ?_, ?_⟩
  · calc s.cmd.results.length
        = (mapKeys s.cmd.results).length := (List.length_map _ _).symm
      _ = (mapKeys s.cmd.results).toFinset.card :=
          (List.toFinset_card_of_nodup hinv.keys_nodup).symm
      _ = (s.cmd.hosts.map HostSpec.name).toFinset.card := by rw [hfins]
      _ = (s.cmd.hosts.map HostSpec.name).dedup.length :=
          toFinset_card_eq_dedup_length _
  · intro hnd
    calc s.cmd.results.length
        = (mapKeys s.cmd.results).length := (List.length_map _ _).symm
      _ = (mapKeys s.cmd.results).toFinset.card :=
          (List.toFinset_card_of_nodup hinv.keys_nodup).symm
      _ = (s.cmd.hosts.map HostSpec.name).toFinset.card := by rw [hfins]
      _ = (s.cmd.hosts.map HostSpec.name).length :=
          List.toFinset_card_of_nodup hnd
      _ = s.cmd.hosts.length := List.length_map _ _
  · intro s₁ e s₂ hstep
    exact step_keys_mono hstep

theorem results_one_entry_witness :
    Reachable sysB6
  ∧ sysB6.cmd.status ≠ .pending
  ∧ (∀ e ∈ sysB6.execs, e.phase = .finished)
  ∧ sysB6.cmd.results.length =
      (sysB6.cmd.hosts.map HostSpec.name).dedup.length :=
  ⟨reachableB6, by decide, by decide,
    (results_one_entry_per_distinct_name reachableB6 (by decide)
      (by decide)).2.1⟩

theorem inv_status_ne_pending_of_get {s : Sys} {i : Nat} {e : Exec}
    (hinv : Inv s) (hget : s.execs.get? i = some e) :
    s.cmd.status ≠ .pending := by
  obtain ⟨cmd, execs⟩ := s
  exact hinv.status_ne_pending_of_get hget

/-- One step preserves "executor `i` targets `h` and is still idle or already
finished" while the context is cancelled. -/
theorem step_exec_stable {s s' : Sys} {e : Event} {i : Nat} {h : HostSpec}
    (hstep : Step s e s')
    (hc : s.cmd.cancelled = true) (hnp : s.cmd.status ≠ .pending)
    (hex : ∀ ex, s.execs.get? i = some ex →
        ex.host = h ∧ (ex.phase = .idle ∨ ex.phase = .finished)) :
    ∀ ex, s'.execs.get? i = some ex →
        ex.host = h ∧ (ex.phase = .idle ∨ ex.phase = .finished) := by
  intro ex hexi
  cases hstep with
  | start cmd execs t hst => exact absurd hst hnp
  | cancel cmd execs hst => exact hex ex hexi
  | finalize cmd execs t hall hst => exact hex ex hexi
  | precheckCancelled cmd execs j h0 hget hcc =>
    by_cases hij : j = i
    · rw [hij] at hget hexi
      rw [List.get?_set, if_pos rfl, hget] at hexi
      simp only [Option.map_eq_map, Option.map_some'] at hexi
      injection hexi with hexi
      obtain ⟨hh, _⟩ := hex _ hget
      rw [← hexi]
      exact ⟨hh, Or.inr rfl⟩
    · rw [List.get?_set, if_neg hij] at hexi
      exact hex ex hexi
  | precheckPass cmd execs j h0 hget hcc =>
    have hc2 : cmd.cancelled = true := hc
    rw [hcc] at hc2
    simp at hc2
  | connectFail cmd execs j h0 msg hget =>
    by_cases hij : j = i
    · rw [hij] at hget
      obtain ⟨_, hph⟩ := hex _ hget
      rcases hph with hph | hph <;> simp at hph
    · rw [List.get?_set, if_neg hij] at hexi
      exact hex ex hexi
  | connectOk cmd execs j h0 hget =>
    by_cases hij : j = i
    · rw [hij] at hget
      obtain ⟨_, hph⟩ := hex _ hget
      rcases hph with hph | hph <;> simp at hph
    · rw [List.get?_set, if_neg hij] at hexi
      exact hex ex hexi
  | setupFail cmd execs j h0 msg hget =>
    by_cases hij : j = i
    · rw [hij] at hget
      obtain ⟨_, hph⟩ := hex _ hget
      rcases hph with hph | hph <;> simp at hph
    · rw [List.get?_set, if_neg hij] at hexi
      exact hex ex hexi
  | setupOk cmd execs j h0 hget =>
    by_cases hij : j = i
    · rw [hij] at hget
      obtain ⟨_, hph⟩ := hex _ hget
      rcases hph with hph | hph <;> simp at hph
    · rw [List.get?_set, if_neg hij] at hexi
      exact hex ex hexi
  | chunkOut cmd execs j h0 so se data hget hdata =>
    by_cases hij : j = i
    · rw [hij] at hget
      obtain ⟨_, hph⟩ := hex _ hget
      rcases hph with hph | hph <;> simp at hph
    · rw [List.get?_set, if_neg hij] at hexi
      exact hex ex hexi
  | chunkErr cmd execs j h0 so se data hget hdata =>
    by_cases hij : j = i
    · rw [hij] at hget
      obtain ⟨_, hph⟩ := hex _ hget
      rcases hph with hph | hph <;> simp at hph
    · rw [List.get?_set, if_neg hij] at hexi
      exact hex ex hexi
  | readersJoin cmd execs j h0 so se hget =>
    by_cases hij : j = i
    · rw [hij] at hget
      obtain ⟨_, hph⟩ := hex _ hget
      rcases hph with hph | hph <;> simp at hph
    · rw [List.get?_set, if_neg hij] at hexi
      exact hex ex hexi
  | waitDone cmd execs j h0 so se exitErr hget =>
    by_cases hij : j = i
    · rw [hij] at hget
      obtain ⟨_, hph⟩ := hex _ hget
      rcases hph with hph | hph <;> simp at hph
    · rw [List.get?_set, if_neg hij] at hexi
      exact hex ex hexi
  | cancelObserved cmd execs j h0 so se joined hget hcc =>
    by_cases hij : j = i
    · rw [hij] at hget
      obtain ⟨_, hph⟩ := hex _ hget
      rcases hph with hph | hph <;> simp at hph
    · rw [List.get?_set, if_neg hij] at hexi
      exact hex ex hexi

/-- Along any run from a cancelled state in which executor `i` is still at
its pre-dispatch check, that executor only ever stays idle or finishes — it
never reaches the connecting phase. -/
theorem cancelled_idle_stable {i : Nat} {h : HostSpec} {s s' : Sys}
    (hreach : Reaches s s')
    (hc : s.cmd.cancelled = true) (hnp : s.cmd.status ≠ .pending)
    (hex : ∀ ex, s.execs.get? i = some ex →
        ex.host = h ∧ (ex.phase = .idle ∨ ex.phase = .finished)) :
    s'.cmd.cancelled = true ∧ s'.cmd.status ≠ .pending ∧
    (∀ ex, s'.execs.get? i = some ex →
        ex.host = h ∧ (ex.phase = .idle ∨ ex.phase = .finished)) := by
  induction hreach with
  | refl => exact ⟨hc, hnp, hex⟩
  | tail hr hstep ih =>
    obtain ⟨hc1, hnp1, hex1⟩ := ih
    exact ⟨step_cancelled_mono hstep hnp1 hc1,
      step_status_ne_pending hstep hnp1,
      step_exec_stable hstep hc1 hnp1 hex1⟩

/-- C9: if the cancellation signal is already raised when an executor is at
its pre-dispatch check, then along every future of the run that executor
never reaches the connecting phase (no connection attempt), and the one step
it can take is the pre-check itself, which records the "command cancelled"
error as that host's HostResult and finishes. -/
theorem precheck_cancelled_no_connect {s s' : Sys} {i : Nat} {h : HostSpec}
    (hre : Reachable s) (hc : s.cmd.cancelled = true)
    (hget : s.execs.get? i = some ⟨h, .idle⟩)
    (hreach : Reaches s s') :
    (∀ ex, s'.execs.get? i = some ex →
        ex.host = h ∧ (ex.phase = .idle ∨ ex.phase = .finished))
    ∧ (∀ (e : Event) (s'' : Sys), Step s' e s'' →
        s'.execs.get? i = some ⟨h, .idle⟩ →
        s''.execs.get? i ≠ some ⟨h, .idle⟩ →
        e = .precheckCancelled i
        ∧ mapGet s''.cmd.results h.name =
            some ⟨h.name, "", some "command cancelled"⟩
        ∧ s''.execs.get? i = some ⟨h, .finished⟩) := by
  have hnp : s.cmd.status ≠ .pending :=
    inv_status_ne_pending_of_get (reachable_inv hre) hget
  have hex0 : ∀ ex, s.execs.get? i = some ex →
      ex.host = h ∧ (ex.phase = .idle ∨ ex.phase = .finished) := by
    intro ex hx
    rw [hget] at hx
    injection hx with hx
    rw [← hx]
    exact ⟨rfl, Or.inl rfl⟩
  obtain ⟨hc1, hnp1, hex1⟩ := cancelled_idle_stable hreach hc hnp hex0
  refine ⟨hex1, ?_⟩
  intro e s'' hstep hidle hne
  cases hstep with
  | start cmd execs t hst => exact absurd hst hnp1
  | cancel cmd execs hst => exact absurd hidle hne
  | finalize cmd execs t hall hst => exact absurd hidle hne
  | precheckCancelled cmd execs j h0 hget0 hcc =>
    by_cases hij : j = i
    · rw [hij] at hget0
      have hh : h0 = h := by
        rw [hget0] at hidle
        injection hidle with hx
        injection hx with h1 h2
      rw [hh] at hget0
      refine ⟨by rw [hij], ?_, ?_⟩
      · rw [hh]
        exact mapGet_mapSet_self _ _ _
      · rw [hij, hh, List.get?_set, if_pos rfl, hget0]
        rfl
    · refine absurd ?_ hne
      rw [List.get?_set, if_neg hij]
      exact hidle
  | precheckPass cmd execs j h0 hget0 hcc =>
    have hc2 : cmd.cancelled = true := hc1
    rw [hcc] at hc2
    simp at hc2
  | connectFail cmd execs j h0 msg hget0 =>
    by_cases hij : j = i
    · rw [hij] at hget0
      rw [hget0] at hidle
      injection hidle with hx
      injection hx with h1 h2
      simp at h2
    · refine absurd ?_ hne
      rw [List.get?_set, if_neg hij]
      exact hidle
  | connectOk cmd execs j h0 hget0 =>
    by_cases hij : j = i
    · rw [hij] at hget0
      rw [hget0] at hidle
      injection hidle with hx
      injection hx with h1 h2
      simp at h2
    · refine absurd ?_ hne
      rw [List.get?_set, if_neg hij]
      exact hidle
  | setupFail cmd execs j h0 msg hget0 =>
    by_cases hij : j = i
    · rw [hij] at hget0
      rw [hget0] at hidle
      injection hidle with hx
      injection hx with h1 h2
      simp at h2
    · refine absurd ?_ hne
      rw [List.get?_set, if_neg hij]
      exact hidle
  | setupOk cmd execs j h0 hget0 =>
    by_cases hij : j = i
    · rw [hij] at hget0
      rw [hget0] at hidle
      injection hidle with hx
      injection hx with h1 h2
      simp at h2
    · refine absurd ?_ hne
      rw [List.get?_set, if_neg hij]
      exact hidle
  | chunkOut cmd execs j h0 so se data hget0 hdata =>
    by_cases hij : j = i
    · rw [hij] at hget0
      rw [hget0] at hidle
      injection hidle with hx
      injection hx with h1 h2
      simp at h2
    · refine absurd ?_ hne
      rw [List.get?_set, if_neg hij]
      exact hidle
  | chunkErr cmd execs j h0 so se data hget0 hdata =>
    by_cases hij : j = i
    · rw [hij] at hget0
      rw [hget0] at hidle
      injection hidle with hx
      injection hx with h1 h2
      simp at h2
    · refine absurd ?_ hne
      rw [List.get?_set, if_neg hij]
      exact hidle
  | readersJoin cmd execs j h0 so se hget0 =>
    by_cases hij : j = i
    · rw [hij] at hget0
      rw [hget0] at hidle
      injection hidle with hx
      injection hx with h1 h2
      simp at h2
    · refine absurd ?_ hne
      rw [List.get?_set, if_neg hij]
      exact hidle
  | waitDone cmd execs j h0 so se exitErr hget0 =>
    by_cases hij : j = i
    · rw [hij] at hget0
      rw [hget0] at hidle
      injection hidle with hx
      injection hx with h1 h2
      simp at h2
    · refine absurd ?_ hne
      rw [List.get?_set, if_neg hij]
      exact hidle
  | cancelObserved cmd execs j h0 so se joined hget0 hcc =>
    by_cases hij : j = i
    · rw [hij] at hget0
      rw [hget0] at hidle
      injection hidle with hx
      injection hx with h1 h2
      simp at h2
    · refine absurd ?_ hne
      rw [List.get?_set, if_neg hij]
      exact hidle

theorem precheck_cancelled_no_connect_witness :
    Reachable sysC2
  ∧ sysC2.cmd.cancelled = true
  ∧ sysC2.execs.get? 0 = some ⟨hostC, .idle⟩
  ∧ Step sysC2 (.precheckCancelled 0) sysC3
  ∧ mapGet sysC3.cmd.results "w9" =
      some ⟨"w9", "", some "command cancelled"⟩
  ∧ sysC3.execs.get? 0 = some ⟨hostC, .finished⟩ := by
  have happ := precheck_cancelled_no_connect (i := 0) (h := hostC)
    reachableC2 rfl rfl (Reaches.refl sysC2)
  have h2 := happ.2 (.precheckCancelled 0) sysC3 stepC23 rfl (by decide)
  exact ⟨reachableC2, rfl, rfl, stepC23, h2.2.1, h2.2.2⟩

theorem waitTicks_succ (reqCancelled : Nat → Bool) (cmdAt : Nat → Command)
    (k r : Nat) :
    waitTicks reqCancelled cmdAt k (r + 1) =
      if reqCancelled k then (k, WaitResult.aborted)
      else if (cmdAt k).status.isTerminal then
        (k, WaitResult.snapshot ((cmdAt k).toState))
      else waitTicks reqCancelled cmdAt (k + 1) r := rfl

/-- C7: when the 30 s deadline elapses with the Command still Running (and
the request's own context never fires), the bounded wait returns the current
Running snapshot at the deadline tick.  The snapshot is exactly the
Command's own state at that tick (nothing is altered by the wait), and the
wait's outcome is insensitive to how the Command's trace continues past the
deadline — the Command keeps running to its terminal state in the
background, unconstrained and unmutated by the wait. -/
theorem wait_deadline_running_snapshot (reqCancelled : Nat → Bool)
    (cmdAt : Nat → Command)
    (hreq : ∀ j, reqCancelled j = false)
    (hrun : ∀ j, 1 ≤ j → j ≤ 60 → (cmdAt j).status = .running) :
    waitForCompletion reqCancelled cmdAt =
      (60, .snapshot (Command.toState (cmdAt 60)))
    ∧ (Command.toState (cmdAt 60)).status = .running
    ∧ (Command.toState (cmdAt 60)).results = (cmdAt 60).results
    ∧ (Command.toState (cmdAt 60)).startedAt = (cmdAt 60).startedAt
    ∧ (Command.toState (cmdAt 60)).endedAt = (cmdAt 60).endedAt
    ∧ (∀ cmdAtCont : Nat → Command,
        (∀ j, j ≤ 60 → cmdAtCont j = cmdAt j) →
        waitForCompletion reqCancelled cmdAtCont =
          waitForCompletion reqCancelled cmdAt) := by
  have hterm : ∀ j, 1 ≤ j → j ≤ 1 + 59 →
      (cmdAt j).status.isTerminal = false := by
    intro j h1 h2
    rw [hrun j h1 (by omega)]
    rfl
  have hmain := waitTicks_deadline reqCancelled cmdAt 59 1 hreq hterm
  have h60 : (1 : Nat) + 59 = 60 := rfl
  rw [h60] at hmain
  refine ⟨hmain, ?_, rfl, rfl, rfl, ?_⟩
  · show (cmdAt 60).status = .running
    exact hrun 60 (by omega) (by omega)
  · intro cmdAtCont hagree
    show waitTicks reqCancelled cmdAtCont 1 59 =
      waitTicks reqCancelled cmdAt 1 59
    exact waitTicks_congr reqCancelled cmdAt cmdAtCont 59 1
      (fun j hj1 hj2 => hagree j (by omega))

theorem wait_deadline_running_snapshot_witness :
    (∀ j, (1 : Nat) ≤ j → j ≤ 60 →
      ((fun _ => cmdRunningW) j : Command).status = .running)
  ∧ waitForCompletion (fun _ => false) (fun _ => cmdRunningW) =
      (60, .snapshot (Command.toState cmdRunningW))
  ∧ (Command.toState cmdRunningW).status = .running :=
  ⟨fun _ _ _ => rfl,
    (wait_deadline_running_snapshot (fun _ => false) (fun _ => cmdRunningW)
      (fun _ => rfl) (fun _ _ _ => rfl)).1,
    (wait_deadline_running_snapshot (fun _ => false) (fun _ => cmdRunningW)
      (fun _ => rfl) (fun _ _ _ => rfl)).2.1⟩

/-- C8 as stated is false: both wait loops enter `select` with only the
request context and the 500 ms ticker as alternatives and perform no status
check before the first ticker fire, so even on an already-terminal Command
the wait returns at tick 1 — after one full polling interval — not at tick 0
(immediately, before any polling interval). -/
theorem wait_terminal_not_immediate :
    (waitForCompletion (fun _ => false) (fun _ => cmdDoneW)).1 = 1
  ∧ ¬ (waitForCompletion (fun _ => false) (fun _ => cmdDoneW)).1 = 0 := by
  constructor
  · rfl
  · intro hzero
    simp only [waitForCompletion] at hzero
    rw [show (59 : Nat) = 58 + 1 from rfl, waitTicks_succ] at hzero
    simp [CommandStatus.isTerminal, cmdDoneW] at hzero

/-- C8 amended: the bounded wait on an already-terminal Command returns that
terminal snapshot at the first ticker fire (after one 500 ms polling
interval), rather than waiting toward the 30 s deadline. -/
theorem wait_terminal_first_tick (reqCancelled : Nat → Bool)
    (cmdAt : Nat → Command)
    (hreq : reqCancelled 1 = false)
    (hterm : (cmdAt 1).status.isTerminal = true) :
    waitForCompletion reqCancelled cmdAt =
      (1, .snapshot (Command.toState (cmdAt 1))) := by
  show waitTicks reqCancelled cmdAt 1 59 = _
  rw [show (59 : Nat) = 58 + 1 from rfl, waitTicks_succ, hreq, hterm]
  simp

theorem wait_terminal_first_tick_witness :
    cmdDoneW.status.isTerminal = true
  ∧ waitForCompletion (fun _ => false) (fun _ => cmdDoneW) =
      (1, .snapshot (Command.toState cmdDoneW)) :=
  ⟨rfl, wait_terminal_first_tick (fun _ => false) (fun _ => cmdDoneW) rfl rfl⟩

/-- C10: `get_command_status` invoked with a missing or empty `command_id`
does not fail on that ground: it resolves to the Command with the latest
`createdAt` via `GetMostRecentCommand`, and errors only when the registry
holds no commands at all. -/
theorem status_handler_defaults_most_recent (r : Runner) :
    ((∃ st, getCommandStatusHandler r "" = .structured st) ↔
        r.commands ≠ [])
    ∧ (r.commands = [] →
        getCommandStatusHandler r "" = .errMsg "no commands found")
    ∧ (r.commands ≠ [] →
        ∃ c, r.getMostRecentCommand = .ok c
          ∧ c ∈ r.commands
          ∧ (∀ c2 ∈ r.commands, c2.createdAt ≤ c.createdAt)
          ∧ getCommandStatusHandler r "" = .structured c.toState) := by
  refine ⟨⟨?_, ?_⟩, ?_, ?_⟩
  · rintro ⟨st, hst⟩ hnil
    simp [getCommandStatusHandler, getCommandStatusResolve,
      Runner.getMostRecentCommand, hnil] at hst
  · intro hne
    cases hcmds : r.commands with
    | nil => exact absurd hcmds hne
    | cons c rest =>
      refine ⟨Command.toState (rest.foldl moreRecent c), ?_⟩
      simp [getCommandStatusHandler, getCommandStatusResolve,
        Runner.getMostRecentCommand, hcmds]
  · intro hnil
    simp [getCommandStatusHandler, getCommandStatusResolve,
      Runner.getMostRecentCommand, hnil]
  · intro hne
    cases hcmds : r.commands with
    | nil => exact absurd hcmds hne
    | cons c rest =>
      refine ⟨rest.foldl moreRecent c, ?_, ?_, ?_, ?_⟩
      · simp [Runner.getMostRecentCommand, hcmds]
      · exact foldl_moreRecent_mem c rest
      · intro c2 hc2
        exact foldl_moreRecent_le c rest c2 hc2
      · simp [getCommandStatusHandler, getCommandStatusResolve,
          Runner.getMostRecentCommand, hcmds]

theorem status_handler_witness :
    runnerW.commands ≠ []
  ∧ getCommandStatusHandler runnerW "" =
      .structured (Command.toState cmdReg2)
  ∧ (∃ c, runnerW.getMostRecentCommand = .ok c
      ∧ c ∈ runnerW.commands
      ∧ (∀ c2 ∈ runnerW.commands, c2.createdAt ≤ c.createdAt)
      ∧ getCommandStatusHandler runnerW "" = .structured c.toState) :=
  ⟨by decide, by decide,
    (status_handler_defaults_most_recent runnerW).2.2 (by decide)⟩
